import Mathlib

/-!
Verification of the SIRS neuron model (`src/models/sirs_neuron.h`).

The header under `src/models/sirs_neuron.h` declares the class
`nest::sirs_neuron` with its nested `Parameters_`, `State_` and `Buffers_`
structs and the member functions `update`, `set_status`, `calibrate_time`
and `handle`, but the bodies of those member functions are not part of the
sources available here.  Their behaviour is therefore modelled from the
specification (spec.md, in particular sections 3, 4.2, 4.3, 4.4, 6 and 7),
together with the data-model and contract information that the header does
contain (field lists of `Parameters_` and `State_`, and the multiplicity
contract in the class doc comment at lines 63-74 of the header).

Modelling conventions:
- continuous quantities (`double` in C++, simulated times) are rationals;
- the thread-local RNG is replaced by explicit inputs to each
  re-evaluation: a uniform draw `u` in [0,1) for the Bernoulli decisions
  and a positive interval draw `dt` for the exponential inter-update
  interval;
- the gain function `g` is an explicit function argument (the class is
  generic over it);
- draining the input buffers is represented by the summed value `drained`
  handed to the re-evaluation, together with a flag `inputPresent`.
-/

namespace SIRS

/-- Model of `Parameters_` (header lines 134-148): mean inter-update
interval `tau_m_`, transition probability S->I `beta_sirs_`, transition
probability I->R `mu_sirs_`. -/
structure Parameters_ where
  tau_m_ : Rat
  beta_sirs_ : Rat
  mu_sirs_ : Rat
deriving Repr, DecidableEq

/-- Parameter invariant from spec section 3: `tau_m > 0`, `beta, mu` in
[0,1]. -/
def Parameters_.valid (P : Parameters_) : Prop :=
  0 < P.tau_m_ ∧ 0 ≤ P.beta_sirs_ ∧ P.beta_sirs_ ≤ 1 ∧ 0 ≤ P.mu_sirs_ ∧ P.mu_sirs_ ≤ 1

instance (P : Parameters_) : Decidable P.valid := by
  unfold Parameters_.valid; infer_instance

/-- Model of `State_` (header lines 155-167): discrete state `y_` in
{0,1,2}, total input `h_`, node id of the last received spike
`last_in_node_id_`, time of next update `t_next_`, time of last input
spike `t_last_in_spike_`. -/
structure State_ where
  y_ : Int
  h_ : Rat
  last_in_node_id_ : Rat
  t_next_ : Rat
  t_last_in_spike_ : Rat
deriving Repr, DecidableEq

/-- The discrete state is one of {0 = S, 1 = I, 2 = R}. -/
def validY (y : Int) : Prop := y = 0 ∨ y = 1 ∨ y = 2

instance (y : Int) : Decidable (validY y) := by
  unfold validY; infer_instance

/-- Clamp a computed probability into [0,1] (spec sections 4.2 and 7:
a probability outside [0,1] is silently clamped, never an error). -/
def clamp01 (x : Rat) : Rat := max 0 (min 1 x)

/-- The environment of one re-evaluation of the update engine:
the simulation time `t` at which the engine runs, the summed buffer
content `drained` for the elapsed window, whether any input was present
in that window, the uniform draw `u` in [0,1) used for the Bernoulli
decision, and the (positive) exponential draw `dt` for the next
inter-update interval. -/
structure UpdateInput where
  t : Rat
  drained : Rat
  inputPresent : Bool
  u : Rat
  dt : Rat
deriving Repr, DecidableEq

/-- Result of one re-evaluation: the new state, and the multiplicity of
the emitted spike if a spike is emitted (`none` when no signal is sent). -/
structure UpdateResult where
  state : State_
  emission : Option Nat
deriving Repr, DecidableEq

/-- Modelled from the spec: the state-transition rule of the update
engine (`sirs_neuron::update`, declared at header line 123; body not in
the sources).  Spec section 4.2: from S, with probability
`clamp01 (g h * beta)` go to I; from I, with probability `mu` go to R;
from R, deterministically back to S.  A Bernoulli event of probability
`p` happens exactly when the uniform draw `u` satisfies `u < p`. -/
def transition (g : Rat → Rat) (P : Parameters_) (h u : Rat) (y : Int) : Int :=
  if y = 0 then (if u < clamp01 (g h * P.beta_sirs_) then 1 else 0)
  else if y = 1 then (if u < P.mu_sirs_ then 2 else 1)
  else if y = 2 then 0
  else y

/-- Modelled from the spec: the event-encoding contract (spec section
4.3, and header doc comment lines 63-74): on a state change emit one
spike, multiplicity 2 for an up-transition (state index increasing),
multiplicity 1 for a down-transition; no emission when unchanged. -/
def multiplicityOf (y y' : Int) : Option Nat :=
  if y' = y then none
  else if y < y' then some 2
  else some 1

/-- Modelled from the spec: one re-evaluation of the update engine
(`sirs_neuron::update`, declared at header line 123; body not in the
sources).  Spec section 4.2 algorithm: drain the buffers into `h`,
evaluate the transition rule, emit a signal when the state changed,
draw the next inter-update interval and set `t_next = t + dt`, and
record the time of last input if any input was present. -/
def update (g : Rat → Rat) (P : Parameters_) (s : State_) (i : UpdateInput) : UpdateResult :=
  let y' := transition g P i.drained i.u s.y_
  { state :=
      { y_ := y'
        h_ := i.drained
        last_in_node_id_ := s.last_in_node_id_
        t_next_ := i.t + i.dt
        t_last_in_spike_ := if i.inputPresent then i.t else s.t_last_in_spike_ }
    emission := multiplicityOf s.y_ y' }

/-- A finite run of the update engine: fold `update` over a list of
re-evaluation environments. -/
def run (g : Rat → Rat) (P : Parameters_) (s : State_) : List UpdateInput → State_
  | [] => s
  | i :: is => run g P (update g P s i).state is

/-- The sequence of discrete states produced along a run. -/
def ySeq (g : Rat → Rat) (P : Parameters_) (s : State_) : List UpdateInput → List Int
  | [] => []
  | i :: is => (update g P s i).state.y_ :: ySeq g P (update g P s i).state is

/-- A draw for a self-scheduled re-evaluation (the engine runs at the
unit's own `t_next_`, so no separate time field is needed). -/
structure Draw where
  drained : Rat
  inputPresent : Bool
  u : Rat
  dt : Rat
deriving Repr, DecidableEq

/-- Promote a `Draw` to an `UpdateInput` at the unit's scheduled time. -/
def Draw.at (d : Draw) (t : Rat) : UpdateInput :=
  { t := t, drained := d.drained, inputPresent := d.inputPresent, u := d.u, dt := d.dt }

/-- The successive re-evaluation times of a self-scheduled run: each
re-evaluation happens at the current `t_next_` and redraws it. -/
def reevalTimes (g : Rat → Rat) (P : Parameters_) (s : State_) : List Draw → List Rat
  | [] => []
  | d :: ds =>
      s.t_next_ :: reevalTimes g P (update g P s (d.at s.t_next_)).state ds

/-- A configuration dictionary for `set_status`: each field is present
(`some`) or absent (`none`).  Spec section 6: the dictionary exchanges
`tau_m`, `beta`, `mu` (Parameters) and `y`, `h` (initial State). -/
structure StatusDict where
  tau_m : Option Rat
  beta : Option Rat
  mu : Option Rat
  y : Option Int
  h : Option Rat
deriving Repr, DecidableEq

/-- Modelled from the spec: `sirs_neuron::set_status` (declared at
header lines 110-111) together with `Parameters_::set` (header line 147)
and `State_::set`; bodies not in the sources.  Spec sections 6 and 7:
setting validates the invariants of section 3 and fails without mutating
anything if any supplied value is out of range (tau_m <= 0, beta or mu
outside [0,1], y outside {0,1,2}). -/
def set_status (P : Parameters_) (S : State_) (d : StatusDict) :
    Except String (Parameters_ × State_) :=
  let Ptmp : Parameters_ :=
    { tau_m_ := d.tau_m.getD P.tau_m_
      beta_sirs_ := d.beta.getD P.beta_sirs_
      mu_sirs_ := d.mu.getD P.mu_sirs_ }
  let ytmp : Int := d.y.getD S.y_
  if Ptmp.tau_m_ ≤ 0 then .error "tau_m must be positive"
  else if Ptmp.beta_sirs_ < 0 ∨ 1 < Ptmp.beta_sirs_ then
    .error "beta must be a probability"
  else if Ptmp.mu_sirs_ < 0 ∨ 1 < Ptmp.mu_sirs_ then
    .error "mu must be a probability"
  else if ¬ validY ytmp then .error "y must be 0, 1 or 2"
  else .ok (Ptmp, { S with y_ := ytmp, h_ := d.h.getD S.h_ })

/-- The configuration visible after a `set_status` call: the new pair on
success, the previous pair when the call signalled an error. -/
def afterSetStatus (P : Parameters_) (S : State_) (d : StatusDict) :
    Parameters_ × State_ :=
  match set_status P S d with
  | .ok r => r
  | .error _ => (P, S)

/-- A dictionary value violating the parameter/state invariants of spec
section 3 (out-of-range `tau_m`, `beta`, `mu`, or `y`). -/
def StatusDict.invalid (d : StatusDict) : Prop :=
  (∃ v, d.tau_m = some v ∧ v ≤ 0)
  ∨ (∃ v, d.beta = some v ∧ (v < 0 ∨ 1 < v))
  ∨ (∃ v, d.mu = some v ∧ (v < 0 ∨ 1 < v))
  ∨ (∃ v, d.y = some v ∧ ¬ validY v)

/-- Modelled from the spec: the time-rescaling hook
`sirs_neuron::calibrate_time` (declared at header line 113; body not in
the sources).  Spec section 6: given an old-to-new time-unit conversion
factor, rescale `tau_m` and the pending `t_next`/`t_last_input`. -/
def calibrate_time (k : Rat) (P : Parameters_) (S : State_) :
    Parameters_ × State_ :=
  ({ P with tau_m_ := k * P.tau_m_ },
   { S with t_next_ := k * S.t_next_, t_last_in_spike_ := k * S.t_last_in_spike_ })

/-- Rescale one re-evaluation environment by the conversion factor `k`:
the absolute time and the drawn interval are times, the drained input
and the uniform draw are dimensionless. -/
def UpdateInput.rescale (k : Rat) (i : UpdateInput) : UpdateInput :=
  { i with t := k * i.t, dt := k * i.dt }

/-- A delivered spike event: synaptic weight, event multiplicity, the
time bin of the delivery, the sender's node id and the time stamp. -/
structure SpikeEvent where
  weight : Rat
  bin : Nat
  sender : Rat
  stamp : Rat
deriving Repr, DecidableEq

/-- A delivered current event: amplitude, weight and the time bin. -/
structure CurrentEvent where
  amplitude : Rat
  weight : Rat
  bin : Nat
deriving Repr, DecidableEq

/-- The whole unit: parameters, state and the two ring buffers of
`Buffers_` (header lines 174-186), each modelled as a map from time bin
to accumulated value. -/
structure Neuron where
  P_ : Parameters_
  S_ : State_
  spikes_ : Nat → Rat
  currents_ : Nat → Rat

/-- Modelled from the spec: `sirs_neuron::handle(SpikeEvent&)` (declared
at header line 99; body not in the sources).  Spec section 4.4: the
spike's weight is added into the discrete-signal buffer at its time bin;
the input-bookkeeping fields of `State_` (`last_in_node_id_`,
`t_last_in_spike_`, header lines 159 and 161) record the sender and the
stamp of the last received spike. -/
def handleSpike (n : Neuron) (e : SpikeEvent) : Neuron :=
  { n with
    spikes_ := fun b => if b = e.bin then n.spikes_ b + e.weight else n.spikes_ b
    S_ := { n.S_ with last_in_node_id_ := e.sender, t_last_in_spike_ := e.stamp } }

/-- Modelled from the spec: `sirs_neuron::handle(CurrentEvent&)`
(declared at header line 100; body not in the sources).  Spec section
4.4: the weighted current amplitude is integrated into the
continuous-signal buffer at its time bin. -/
def handleCurrent (n : Neuron) (e : CurrentEvent) : Neuron :=
  { n with
    currents_ := fun b =>
      if b = e.bin then n.currents_ b + e.weight * e.amplitude else n.currents_ b }

/-! Concrete instances used by the witness theorems. -/

/-- A linear gain function (the clamped-identity variant of spec 4.1,
restricted to the inputs exercised by the witnesses). -/
def g0 : Rat → Rat := fun x => x

/-- A valid parameter set: `tau_m = 10`, `beta = 1`, `mu = 1`. -/
def P0 : Parameters_ := ⟨10, 1, 1⟩

/-- A valid parameter set with `mu = 1`. -/
def P1 : Parameters_ := ⟨7, 1, 1⟩

/-- A unit in state S. -/
def s0 : State_ := ⟨0, 0, 0, 5, 0⟩

/-- A unit in state I. -/
def s1 : State_ := ⟨1, 0, 0, 5, 0⟩

/-- A unit in state R. -/
def s2 : State_ := ⟨2, 0, 0, 5, 0⟩

/-- A concrete re-evaluation environment. -/
def i0 : UpdateInput := ⟨5, 1, true, 0, 3⟩

/-- A second concrete re-evaluation environment. -/
def i1 : UpdateInput := ⟨8, 0, false, 0, 2⟩

/-- A concrete neuron with empty buffers. -/
def n0 : Neuron := ⟨P0, s0, fun _ => 0, fun _ => 0⟩

/-! Helper lemmas shared between the claim theorems. -/

/-- The transition rule maps {0,1,2} into {0,1,2}. -/
lemma transition_validY (g : Rat → Rat) (P : Parameters_) (h u : Rat) {y : Int}
    (hy : validY y) : validY (transition g P h u y) := by
  rcases hy with h | h | h <;>
    simp only [transition, h] <;> split_ifs <;> simp [validY]

/-- The state component of one update is the transition rule's output. -/
lemma update_state_y (g : Rat → Rat) (P : Parameters_) (s : State_) (i : UpdateInput) :
    (update g P s i).state.y_ = transition g P i.drained i.u s.y_ := rfl

/-- The emission of one update is the multiplicity encoding of the pair
(old state, new state). -/
lemma update_emission_eq (g : Rat → Rat) (P : Parameters_) (s : State_) (i : UpdateInput) :
    (update g P s i).emission = multiplicityOf s.y_ (update g P s i).state.y_ := rfl

end SIRS

namespace SIRS

/-- C3: whenever the unit is in state R (`y = 2`) at a re-evaluation,
the very next re-evaluation deterministically moves it to S (`y = 0`),
independent of the accumulated input, the gain function and the random
draw. -/
theorem recovered_to_susceptible (g : Rat → Rat) (P : Parameters_) (s : State_)
    (i : UpdateInput) (hy : s.y_ = 2) : (update g P s i).state.y_ = 0 := by
  simp [update, transition, hy]

/-- Witness for C3 at a concrete input. -/
theorem recovered_to_susceptible_witness :
    (update g0 P0 s2 i0).state.y_ = 0 :=
  recovered_to_susceptible g0 P0 s2 i0 (by decide)

/-- C4: a re-evaluation emits no outgoing signal exactly when it leaves
the discrete state unchanged. -/
theorem no_emission_iff_unchanged (g : Rat → Rat) (P : Parameters_) (s : State_)
    (i : UpdateInput) :
    (update g P s i).emission = none ↔ (update g P s i).state.y_ = s.y_ := by
  rw [update_emission_eq]
  unfold multiplicityOf
  split_ifs with h1 h2 <;> simp [h1]

/-- C9: a unit in state I with `mu = 1` transitions to R at its very
next re-evaluation for every possible uniform draw (`u < 1`), regardless
of accumulated input, and emits a spike with multiplicity 2. -/
theorem infected_mu_one_to_recovered (g : Rat → Rat) (P : Parameters_) (s : State_)
    (i : UpdateInput) (hy : s.y_ = 1) (hmu : P.mu_sirs_ = 1) (hu : i.u < 1) :
    (update g P s i).state.y_ = 2 ∧ (update g P s i).emission = some 2 := by
  have h2 : (update g P s i).state.y_ = 2 := by
    rw [update_state_y]
    simp [transition, hy, hmu, hu]
  refine ⟨h2, ?_⟩
  rw [update_emission_eq, h2, hy]
  simp [multiplicityOf]

/-- Witness for C9 at a concrete input. -/
theorem infected_mu_one_to_recovered_witness :
    (update g0 P1 s1 i1).state.y_ = 2 ∧ (update g0 P1 s1 i1).emission = some 2 :=
  infected_mu_one_to_recovered g0 P1 s1 i1 (by decide) (by decide) (by decide)

/-- C10: spike and current delivery mutate only the input buffers and
the input-bookkeeping fields (`last_in_node_id_`, `t_last_in_spike_`):
the discrete state `y_`, the accumulated input `h_`, the parameters and
the scheduled `t_next_` are unchanged by delivery; current delivery
leaves the whole `State_` unchanged. -/
theorem handle_frame (n : Neuron) (e : SpikeEvent) (c : CurrentEvent) :
    (handleSpike n e).P_ = n.P_
    ∧ (handleSpike n e).S_.y_ = n.S_.y_
    ∧ (handleSpike n e).S_.h_ = n.S_.h_
    ∧ (handleSpike n e).S_.t_next_ = n.S_.t_next_
    ∧ (handleSpike n e).currents_ = n.currents_
    ∧ (handleCurrent n c).P_ = n.P_
    ∧ (handleCurrent n c).S_ = n.S_
    ∧ (handleCurrent n c).spikes_ = n.spikes_ :=
  ⟨rfl, rfl, rfl, rfl, rfl, rfl, rfl, rfl⟩

/-- C7: in state S the update engine uses exactly the clamped value
`clamp01 (g h * beta)` as the Bernoulli probability; the clamped value
always lies in [0,1], a product below 0 is clamped to 0 and a product
above 1 is clamped to 1, and the unclamped product is never used. -/
theorem s_branch_uses_clamped_probability (g : Rat → Rat) (P : Parameters_)
    (s : State_) (i : UpdateInput) (hy : s.y_ = 0) :
    (update g P s i).state.y_ =
      (if i.u < clamp01 (g i.drained * P.beta_sirs_) then 1 else 0)
    ∧ 0 ≤ clamp01 (g i.drained * P.beta_sirs_)
    ∧ clamp01 (g i.drained * P.beta_sirs_) ≤ 1
    ∧ (g i.drained * P.beta_sirs_ < 0 → clamp01 (g i.drained * P.beta_sirs_) = 0)
    ∧ (1 < g i.drained * P.beta_sirs_ → clamp01 (g i.drained * P.beta_sirs_) = 1) := by
  refine ⟨?_, le_max_left 0 _, ?_, ?_, ?_⟩
  · rw [update_state_y]; simp [transition, hy]
  · exact max_le (by norm_num) (min_le_left 1 _)
  · intro hneg
    have : min 1 (g i.drained * P.beta_sirs_) ≤ 0 :=
      le_trans (min_le_right 1 _) (le_of_lt hneg)
    simpa [clamp01] using max_eq_left this
  · intro hbig
    have : (1 : Rat) ≤ g i.drained * P.beta_sirs_ := le_of_lt hbig
    simp [clamp01, min_eq_left this]

/-- Witness for C7 at a concrete input. -/
theorem s_branch_uses_clamped_probability_witness :
    (update g0 P0 s0 i0).state.y_ =
      (if i0.u < clamp01 (g0 i0.drained * P0.beta_sirs_) then 1 else 0) :=
  (s_branch_uses_clamped_probability g0 P0 s0 i0 (by decide)).1

/-- C1: a re-evaluation emits a spike exactly when the state changed;
the multiplicity is 2 exactly for the up-transitions S to I and I to R,
1 exactly for the down-transition R to S, and nothing but 1 or 2 is ever
emitted. -/
theorem emitted_multiplicity_characterisation (g : Rat → Rat) (P : Parameters_)
    (s : State_) (i : UpdateInput) (hy : validY s.y_) :
    ((update g P s i).state.y_ ≠ s.y_ ↔ ((update g P s i).emission).isSome)
    ∧ ((update g P s i).emission = some 2 ↔
        (s.y_ = 0 ∧ (update g P s i).state.y_ = 1)
        ∨ (s.y_ = 1 ∧ (update g P s i).state.y_ = 2))
    ∧ ((update g P s i).emission = some 1 ↔
        (s.y_ = 2 ∧ (update g P s i).state.y_ = 0))
    ∧ (∀ m, (update g P s i).emission = some m → m = 1 ∨ m = 2) := by
  rw [update_emission_eq, update_state_y]
  rcases hy with h | h | h
  · rw [h]
    by_cases hc : i.u < clamp01 (g i.drained * P.beta_sirs_)
    · have ht : transition g P i.drained i.u 0 = 1 := by simp [transition, hc]
      rw [ht]; simp [multiplicityOf]
    · have ht : transition g P i.drained i.u 0 = 0 := by simp [transition, hc]
      rw [ht]; simp [multiplicityOf]
  · rw [h]
    by_cases hc : i.u < P.mu_sirs_
    · have ht : transition g P i.drained i.u 1 = 2 := by simp [transition, hc]
      rw [ht]; simp [multiplicityOf]
    · have ht : transition g P i.drained i.u 1 = 1 := by simp [transition, hc]
      rw [ht]; simp [multiplicityOf]
  · rw [h]
    have ht : transition g P i.drained i.u 2 = 0 := by simp [transition]
    rw [ht]; simp [multiplicityOf]

/-- Witness for C1 at a concrete input. -/
theorem emitted_multiplicity_characterisation_witness :
    (update g0 P0 s0 i0).emission = some 2 ↔
      (s0.y_ = 0 ∧ (update g0 P0 s0 i0).state.y_ = 1)
      ∨ (s0.y_ = 1 ∧ (update g0 P0 s0 i0).state.y_ = 2) :=
  (emitted_multiplicity_characterisation g0 P0 s0 i0 (by decide)).2.1

/-- C2: for valid parameters and a valid initial state, after any finite
number of update calls the discrete state is still one of {0,1,2}. -/
theorem y_always_in_range (g : Rat → Rat) (P : Parameters_) (s : State_)
    (is : List UpdateInput) (_hP : P.valid) (hy : validY s.y_) :
    validY (run g P s is).y_ := by
  induction is generalizing s with
  | nil => simpa [run] using hy
  | cons i is ih =>
      rw [run]
      exact ih _ (transition_validY g P i.drained i.u hy)

/-- Witness for C2 at a concrete input. -/
theorem y_always_in_range_witness : validY (run g0 P0 s0 [i0, i1]).y_ :=
  y_always_in_range g0 P0 s0 [i0, i1] (by decide) (by decide)

/-- Every time occurring in a self-scheduled run is at least the
scheduled time of the run's start. -/
lemma reevalTimes_ge (g : Rat → Rat) (P : Parameters_) :
    ∀ (ds : List Draw) (s : State_), (∀ d ∈ ds, 0 < d.dt) →
      ∀ x ∈ reevalTimes g P s ds, s.t_next_ ≤ x := by
  intro ds
  induction ds with
  | nil =>
      intro s _ x hx
      simp [reevalTimes] at hx
  | cons d ds ih =>
      intro s hdt x hx
      rw [reevalTimes] at hx
      rcases List.mem_cons.mp hx with h | h
      · exact le_of_eq h.symm
      · have h1 : s.t_next_ < (update g P s (d.at s.t_next_)).state.t_next_ := by
          show s.t_next_ < s.t_next_ + d.dt
          have hd := hdt d (List.mem_cons_self d ds)
          linarith
        have h2 := ih (update g P s (d.at s.t_next_)).state
          (fun e he => hdt e (List.mem_cons_of_mem d he)) x h
        linarith

/-- C6: across a self-scheduled run the successive re-evaluation times
strictly increase, and a single re-evaluation always schedules its next
update strictly after the time at which the draw is made. -/
theorem t_next_strictly_increasing (g : Rat → Rat) (P : Parameters_) (s : State_)
    (ds : List Draw) (hdt : ∀ d ∈ ds, 0 < d.dt) :
    List.Chain' (fun a b => a < b) (reevalTimes g P s ds)
    ∧ ∀ i : UpdateInput, 0 < i.dt → i.t < (update g P s i).state.t_next_ := by
  constructor
  · induction ds generalizing s with
    | nil => simp [reevalTimes]
    | cons d ds ih =>
        rw [reevalTimes]
        apply List.chain'_cons'.mpr
        refine ⟨?_, ih (update g P s (d.at s.t_next_)).state
          (fun e he => hdt e (List.mem_cons_of_mem d he))⟩
        intro b hb
        have hmem : b ∈ reevalTimes g P (update g P s (d.at s.t_next_)).state ds :=
          List.mem_of_mem_head? hb
        have hge := reevalTimes_ge g P ds (update g P s (d.at s.t_next_)).state
          (fun e he => hdt e (List.mem_cons_of_mem d he)) b hmem
        have h1 : s.t_next_ < (update g P s (d.at s.t_next_)).state.t_next_ := by
          show s.t_next_ < s.t_next_ + d.dt
          have hd := hdt d (List.mem_cons_self d ds)
          linarith
        linarith
  · intro i hi
    show i.t < i.t + i.dt
    linarith

/-- A concrete list of draws with positive intervals. -/
def ds0 : List Draw := [⟨1, true, 0, 3⟩, ⟨0, false, 0, 2⟩]

/-- Witness for C6 at a concrete input. -/
theorem t_next_strictly_increasing_witness :
    List.Chain' (fun a b => a < b) (reevalTimes g0 P0 s0 ds0) :=
  (t_next_strictly_increasing g0 P0 s0 ds0 (by decide)).1

/-- One update step commutes with the time rescaling of
`calibrate_time`: running the engine on the rescaled configuration with
the rescaled inputs yields the rescaled result state and the same
emission. -/
lemma update_rescale_step (g : Rat → Rat) (k : Rat) (P : Parameters_) (s : State_)
    (i : UpdateInput) :
    (update g (calibrate_time k P s).1 (calibrate_time k P s).2 (i.rescale k)).state
      = (calibrate_time k P (update g P s i).state).2
    ∧ (update g (calibrate_time k P s).1 (calibrate_time k P s).2 (i.rescale k)).emission
      = (update g P s i).emission := by
  constructor
  · simp only [update, calibrate_time, UpdateInput.rescale]
    cases hb : i.inputPresent <;>
      simp [transition, State_.mk.injEq, mul_add, hb]
  · rfl

/-- C8: after `calibrate_time` rescales `tau_m` and the pending times by
the conversion factor, a run on correspondingly rescaled inputs produces
the same sequence of discrete states, and its final state is the
rescaling of the original final state. -/
theorem calibrate_time_behavior_invariance (g : Rat → Rat) (k : Rat)
    (P : Parameters_) (s : State_) (is : List UpdateInput) :
    ySeq g (calibrate_time k P s).1 (calibrate_time k P s).2
        (is.map (UpdateInput.rescale k)) = ySeq g P s is
    ∧ run g (calibrate_time k P s).1 (calibrate_time k P s).2
        (is.map (UpdateInput.rescale k)) = (calibrate_time k P (run g P s is)).2 := by
  induction is generalizing s with
  | nil => exact ⟨rfl, rfl⟩
  | cons i is ih =>
      have hstep := update_rescale_step g k P s i
      simp only [List.map_cons, ySeq, run, hstep.1]
      refine ⟨?_, ?_⟩
      · have hy : ((calibrate_time k P (update g P s i).state).2).y_
            = (update g P s i).state.y_ := rfl
        rw [hy]
        have htail := (ih (update g P s i).state).1
        simpa [calibrate_time] using htail
      · have htail := (ih (update g P s i).state).2
        simpa [calibrate_time] using htail

/-- C5: a configuration dictionary containing any out-of-range value is
rejected with an error and the previous parameters and state are left
completely unchanged. -/
theorem set_status_invalid_rejected (P : Parameters_) (S : State_) (d : StatusDict)
    (_hP : P.valid) (hd : d.invalid) :
    (∃ msg, set_status P S d = .error msg) ∧ afterSetStatus P S d = (P, S) := by
  have herr : ∃ msg, set_status P S d = .error msg := by
    rcases hd with ⟨v, hv, hout⟩ | ⟨v, hv, hout⟩ | ⟨v, hv, hout⟩ | ⟨v, hv, hout⟩ <;>
      simp only [set_status, hv, Option.getD_some] <;>
      split_ifs <;>
      simp_all
  obtain ⟨m, hm⟩ := herr
  exact ⟨⟨m, hm⟩, by simp [afterSetStatus, hm]⟩

/-- A dictionary supplying an out-of-range `beta`. -/
def dBad : StatusDict := ⟨none, some 2, none, none, none⟩

/-- Witness for C5 at a concrete input. -/
theorem set_status_invalid_rejected_witness :
    (∃ msg, set_status P0 s0 dBad = .error msg) ∧ afterSetStatus P0 s0 dBad = (P0, s0) :=
  set_status_invalid_rejected P0 s0 dBad (by decide)
    (Or.inr (Or.inl ⟨2, rfl, Or.inr (by decide)⟩))

end SIRS
